import Mathlib

/- Shallow embedding of nvBowtie, file
   nvBowtie/bowtie2/cuda/aligner_best_approx_paired.h: the paired-end
   best-approx alignment orchestration (Aligner::best_approx and
   Aligner::best_approx_score).  Definitions are translated from the
   source; collaborator code that lives outside this file (the io
   pairing predicates, the select and opposite-score kernels, and the
   re-seed output of the pipeline) is modelled from the specification
   and marked as such in the corresponding doc comments. -/

namespace AlignerBestApproxPaired

/-- Uint32 subtraction: the expression params.max_ext - n_ext in the source is
evaluated on uint32 operands, so it wraps modulo 2^32.  Both arguments are
assumed below 2^32 wherever this is used. -/
def u32sub (a b : ℕ) : ℕ :=
  (a + 4294967296 - b) % 4294967296

/-- Translated from Aligner::best_approx_score, lines 719-738:
pipeline.n_hits_per_read starts at 1 and, when the active queue size
in_size satisfies in_size <= BATCH_SIZE/2, becomes
min( BATCH_SIZE / in_size, min( 4096u, params.max_ext - n_ext ) ). -/
def n_hits_per_read (batch_size in_size max_ext n_ext : ℕ) : ℕ :=
  if in_size ≤ batch_size / 2 then
    min (batch_size / in_size) (min 4096 (u32sub max_ext n_ext))
  else 1

/-- Translated from line 781: pipeline.hits_queue_size =
pipeline.n_hits_per_read > 1 ? scoring_queues.hits_count()
: active_read_queues.in_size. -/
def hits_queue_size (nhits post_size hits_count : ℕ) : ℕ :=
  if 1 < nhits then hits_count else post_size

/-- Per-round outcome of the external selection kernel: the size of the
active-read queue after select and the queue swap, and the device-side
selected-hit counter scoring_queues.hits_count(), for each extension pass. -/
structure SelectOracle where
  postSize : ℕ → ℕ
  hitsCount : ℕ → ℕ

/-- Record of one executed extension round: one iteration of the loop at
line 693 whose body was entered (the loop guard active_read_queues.in_size
was non-zero). -/
structure RoundInfo where
  startInSize : ℕ
  startNExt : ℕ
  nHitsPerRead : ℕ
  postSize : ℕ
  hitsQueueSize : ℕ
  deriving DecidableEq

/-- State of the extension loop of Aligner::best_approx_score: the current
input-queue size, the cumulative extension counter n_ext (line 663), and the
log of executed rounds. -/
structure LoopState where
  inSize : ℕ
  nExt : ℕ
  rounds : List RoundInfo
  deriving DecidableEq

/-- Translated from the extension loop, lines 693-959: one iteration.  If the
input queue is empty the loop has terminated and the state is unchanged.
Otherwise n_hits_per_read is computed from the pre-select queue size (lines
719-738), select runs and the queues are swapped (lines 754-771), the new
input size is read (line 777: break when zero), hits_queue_size is set
(line 781: continue when zero, which skips the scoring work and the n_ext
increment), and otherwise the round scores and reduces, incrementing n_ext
by n_hits_per_read (line 954). -/
def stepRound (batch_size max_ext : ℕ) (orc : SelectOracle) (r : ℕ) (s : LoopState) : LoopState :=
  if s.inSize = 0 then s
  else
    let h := n_hits_per_read batch_size s.inSize max_ext s.nExt
    let ps := orc.postSize r
    let hqs := hits_queue_size h ps (orc.hitsCount r)
    { inSize := ps,
      nExt := if ps ≠ 0 ∧ hqs ≠ 0 then s.nExt + h else s.nExt,
      rounds := s.rounds ++ [⟨s.inSize, s.nExt, h, ps, hqs⟩] }

/-- The loop state after r iterations of the extension loop. -/
def loopState (batch_size max_ext : ℕ) (orc : SelectOracle) (s0 : LoopState) : ℕ → LoopState
  | 0 => s0
  | r + 1 => stepRound batch_size max_ext orc r (loopState batch_size max_ext orc s0 r)

/-- Initial loop state, lines 652-663: the active-read queue is filled from the
seed queue (so its size is seed_queue_size) and n_ext starts at 0. -/
def initState (seed_queue_size : ℕ) : LoopState :=
  ⟨seed_queue_size, 0, []⟩

/-- Pairing outcome of one alignment slot.  Modelled from the spec (section 3,
BestAlignments): pairing-outcome flags are paired / unpaired / unaligned. -/
inductive PairingOutcome
  | paired
  | unpaired
  | unaligned
  deriving DecidableEq

/-- Modelled from the spec (section 3): one ranked alignment slot holds a
score, a genome location and a pairing-outcome flag. -/
structure AlnSlot where
  score : Int
  loc : ℕ
  outcome : PairingOutcome
  deriving DecidableEq

/-- Modelled from the spec (section 3): io::BestAlignments keeps two ranked
slots, best and second-best, per read and per anchor mate. -/
structure BestAlignments where
  best : AlnSlot
  second : AlnSlot
  deriving DecidableEq

/-- Modelled from the spec (section 4.4): io::is_paired — the opposite mate
best alignment is genuinely paired with the anchor. -/
def is_paired (a : BestAlignments) : Bool :=
  decide (a.best.outcome = PairingOutcome.paired)

/-- Modelled from the spec (section 4.4): io::is_unpaired — the opposite mate
aligned independently, not satisfying the pairing constraints. -/
def is_unpaired (a : BestAlignments) : Bool :=
  decide (a.best.outcome = PairingOutcome.unpaired)

/-- Modelled from the spec (section 4.4): io::is_aligned — the opposite mate
produced any alignment at all, paired or unpaired. -/
def is_aligned (a : BestAlignments) : Bool :=
  decide (a.best.outcome ≠ PairingOutcome.unaligned)

/-- Modelled from the spec (section 4.4): io::has_second — a second-best
alignment exists. -/
def has_second (a : BestAlignments) : Bool :=
  decide (a.second.outcome ≠ PairingOutcome.unaligned)

/-- Modelled from the spec (section 4.4): io::has_second_paired — the
second-best slot is paired. -/
def has_second_paired (a : BestAlignments) : Bool :=
  decide (a.second.outcome = PairingOutcome.paired)

/-- Modelled from the spec (section 4.4): io::has_second_unpaired — the
second-best slot aligned but not paired. -/
def has_second_unpaired (a : BestAlignments) : Bool :=
  decide (a.second.outcome = PairingOutcome.unpaired)

/-- Translated from the thrust::copy_if compactions over a counting iterator
(lines 293-298, 321-326, 356-361, 403-408, 493-498, 519-524, 551-556):
stream-compact the indices in [0, count) whose registry entry satisfies the
predicate, preserving order. -/
def compact_indices (count : ℕ) (pred : BestAlignments → Bool)
    (reg : ℕ → BestAlignments) : List ℕ :=
  (List.range count).filter (fun i => pred (reg i))

/-- Mate tag handed to the output sink: io::MATE_1 / io::MATE_2. -/
inductive MateId
  | mate1
  | mate2
  deriving DecidableEq

/-- Rank tag handed to the output sink: io::BEST_SCORE /
io::SECOND_BEST_SCORE. -/
inductive Rank
  | best
  | second_best
  deriving DecidableEq

/-- Backtracking primitive kind: banded_traceback_best is the banded
(bounded-width) primitive, opposite_traceback_best is the full (unbanded)
DP primitive (comments at lines 281-285). -/
inductive Prim
  | banded
  | full
  deriving DecidableEq

/-- Which subset a backtracking call works on. -/
inductive Who
  | anchorMate
  | oppositePaired
  | oppositeUnpaired
  deriving DecidableEq

/-- Observable events of the traceback-and-output section of
Aligner::best_approx (lines 204-591). -/
inductive Ev
  | clearCM
  | backtrack (p : Prim) (w : Who) (r : Rank) (n : ℕ)
  | finishAnchor (r : Rank) (n : ℕ)
  | finishOpposite (r : Rank) (n : ℕ)
  | process (m : MateId) (r : Rank)
  deriving DecidableEq

/-- Translated from Aligner::best_approx, lines 204-591: the sequence of
buffer clears, backtracking calls, finishing calls and output-sink process
calls, in program order.  The subset sizes are the lengths of the copy_if
compactions over the anchor and opposite best-alignment arrays.  Note that
the second-best anchor stage (lines 413-460) clears the cigar and MDS
buffers only inside its if (n_second) block, while its process call (lines
462-473) is outside that block. -/
def best_approx_traceback (count : ℕ)
    (best_anchor best_opposite : ℕ → BestAlignments) : List Ev :=
  let n_paired := (compact_indices count is_paired best_opposite).length
  let n_unpaired := (compact_indices count is_unpaired best_opposite).length
  let n_aligned := (compact_indices count is_aligned best_opposite).length
  let n_second := (compact_indices count has_second best_anchor).length
  let n_second_paired := (compact_indices count has_second_paired best_opposite).length
  let n_second_unpaired := (compact_indices count has_second_unpaired best_opposite).length
  let n_second_o := (compact_indices count has_second best_opposite).length
  [Ev.clearCM,
   Ev.backtrack Prim.banded Who.anchorMate Rank.best count,
   Ev.finishAnchor Rank.best count,
   Ev.process MateId.mate1 Rank.best,
   Ev.clearCM] ++
  (if n_paired ≠ 0 then [Ev.backtrack Prim.full Who.oppositePaired Rank.best n_paired] else []) ++
  (if n_unpaired ≠ 0 then
    [Ev.backtrack Prim.banded Who.oppositeUnpaired Rank.best n_unpaired] else []) ++
  (if n_aligned ≠ 0 then [Ev.finishOpposite Rank.best n_aligned] else []) ++
  [Ev.process MateId.mate2 Rank.best] ++
  (if n_second ≠ 0 then
    [Ev.clearCM,
     Ev.backtrack Prim.banded Who.anchorMate Rank.second_best n_second,
     Ev.finishAnchor Rank.second_best n_second]
   else []) ++
  [Ev.process MateId.mate1 Rank.second_best,
   Ev.clearCM] ++
  (if n_second_paired ≠ 0 then
    [Ev.backtrack Prim.full Who.oppositePaired Rank.second_best n_second_paired] else []) ++
  (if n_second_unpaired ≠ 0 then
    [Ev.backtrack Prim.banded Who.oppositeUnpaired Rank.second_best n_second_unpaired] else []) ++
  (if n_second_o ≠ 0 then [Ev.finishOpposite Rank.second_best n_second_o] else []) ++
  [Ev.process MateId.mate2 Rank.second_best]

/-- Projection of an event to an output-sink process call, if it is one. -/
def processOf : Ev → Option (MateId × Rank)
  | Ev.process m r => some (m, r)
  | Ev.clearCM => none
  | Ev.backtrack _ _ _ _ => none
  | Ev.finishAnchor _ _ => none
  | Ev.finishOpposite _ _ => none

/-- The output-sink process calls of a trace, in order. -/
def processEvents (tr : List Ev) : List (MateId × Rank) :=
  tr.filterMap processOf

/-- Splits a trace into the chunks of events that precede each output-sink
process call: chunk k holds everything that happened after the previous
process call and before process call k. -/
def chunksAux (acc : List Ev) : List Ev → List (List Ev)
  | [] => []
  | Ev.clearCM :: rest => chunksAux (acc ++ [Ev.clearCM]) rest
  | Ev.backtrack p w r n :: rest => chunksAux (acc ++ [Ev.backtrack p w r n]) rest
  | Ev.finishAnchor r n :: rest => chunksAux (acc ++ [Ev.finishAnchor r n]) rest
  | Ev.finishOpposite r n :: rest => chunksAux (acc ++ [Ev.finishOpposite r n]) rest
  | Ev.process _ _ :: rest => acc :: chunksAux [] rest

/-- The per-stage chunks of a trace (see chunksAux). -/
def processChunks (tr : List Ev) : List (List Ev) :=
  chunksAux [] tr

/-- The backtracking primitive the source uses for each subset: the full
(unbanded) primitive for paired opposite mates, the banded one otherwise. -/
def expected_prim : Who → Prim
  | Who.oppositePaired => Prim.full
  | Who.anchorMate => Prim.banded
  | Who.oppositeUnpaired => Prim.banded

/-- Checks that a backtracking event uses the primitive the source assigns to
its subset; non-backtracking events pass trivially. -/
def bt_prim_ok : Ev → Bool
  | Ev.backtrack p w _ _ => p == expected_prim w
  | Ev.clearCM => true
  | Ev.finishAnchor _ _ => true
  | Ev.finishOpposite _ _ => true
  | Ev.process _ _ => true

/-- Stages of the tail of one extension round of Aligner::best_approx_score,
lines 861-951. -/
inductive ScoringStage
  | scoreAnchor
  | compactOpposite
  | fillOppositeWorst
  | scoreOpposite
  | reduceScores
  deriving DecidableEq

/-- Translated from lines 861-951: program order of the stages in the tail of
one extension round: anchor_score_best (861), the copy_if compaction of
opposite candidates (891-896), the thrust::fill of the opposite-score queue
with worst_score (899-902), opposite_score_best guarded by
opposite_queue_size (904-910), and score_reduce_paired (945-948). -/
def scoringStageOrder (opposite_queue_size : ℕ) : List ScoringStage :=
  [ScoringStage.scoreAnchor, ScoringStage.compactOpposite, ScoringStage.fillOppositeWorst] ++
  (if opposite_queue_size ≠ 0 then [ScoringStage.scoreOpposite] else []) ++
  [ScoringStage.reduceScores]

/-- Translated from lines 891-896: the compacted opposite queue holds the
indices into idx_queue whose (gathered) anchor score differs from the
worst-score sentinel. -/
def opposite_queue (hits_qsize : ℕ) (idx_queue : ℕ → ℕ) (score_queue : ℕ → Int)
    (worst : Int) : List ℕ :=
  (List.range hits_qsize).filter (fun i => decide (score_queue (idx_queue i) ≠ worst))

/-- Translated from lines 898-902: thrust::fill writes worst_score into
opposite_score_queue[0, hits_queue_size). -/
def fill_worst (hits_qsize : ℕ) (worst : Int) (buf : ℕ → Int) : ℕ → Int :=
  fun j => if j < hits_qsize then worst else buf j

/-- Modelled from the spec (section 6): scoreOpposite writes one opposite
score per compacted entry only; untouched entries retain the sentinel
pre-fill. -/
def opposite_score_writes (cands : List ℕ) (new_score : ℕ → Int)
    (buf : ℕ → Int) : ℕ → Int :=
  fun j => if j ∈ cands then new_score j else buf j

/-- Translated from lines 889-927: the opposite-score buffer at the time the
reduction reads it: after the compaction, the sentinel fill, and (only when
the compacted queue is non-empty) the opposite scoring kernel. -/
def round_opposite_scores (hits_qsize : ℕ) (idx_queue : ℕ → ℕ)
    (score_queue new_score : ℕ → Int) (worst : Int) (buf0 : ℕ → Int) : ℕ → Int :=
  let cands := opposite_queue hits_qsize idx_queue score_queue worst
  if cands.length ≠ 0 then opposite_score_writes cands new_score (fill_worst hits_qsize worst buf0)
  else fill_worst hits_qsize worst buf0

/-- Modelled from the spec (section 4.1): the seeding-pass queue.  Pass 0
starts with the full read set (lines 93-98 fill the seed queue with
[0, count)); each later pass replaces the queue with what the extension
pipeline reports should be re-seeded, a subset of the input queue, realized
here as a filter by an arbitrary per-pass keep predicate (the output seed
queue is filled by the external select and reduce kernels). -/
def seed_queue_at (count : ℕ) (keep : ℕ → ℕ → Bool) : ℕ → List ℕ
  | 0 => List.range count
  | p + 1 => (seed_queue_at count keep p).filter (keep p)

/-- Concrete oracle: the selection keeps the queue at 1024 reads forever. -/
def orcFull : SelectOracle :=
  ⟨fun _ => 1024, fun _ => 1024⟩

/-- Concrete oracle: the selection drops every read immediately. -/
def orcZero : SelectOracle :=
  ⟨fun _ => 0, fun _ => 0⟩

/-- Concrete oracle: the selection keeps 100 reads and reports 300 hits. -/
def orcSmall : SelectOracle :=
  ⟨fun _ => 100, fun _ => 300⟩

/-- Concrete registry: every read has a paired best alignment and no
second-best alignment. -/
def regPairedOnly : ℕ → BestAlignments :=
  fun _ => ⟨⟨0, 0, PairingOutcome.paired⟩, ⟨0, 0, PairingOutcome.unaligned⟩⟩

/-- Concrete keep predicate dropping every read at every pass. -/
def keepNone : ℕ → ℕ → Bool :=
  fun _ _ => false

theorem u32sub_eq_sub (a b : ℕ) (hba : b ≤ a) (ha : a < 4294967296) :
    u32sub a b = a - b := by
  unfold u32sub
  omega

theorem round_info_spec (batch_size max_ext : ℕ) (orc : SelectOracle) (s0 : LoopState)
    (r : ℕ) :
    ∀ info ∈ (loopState batch_size max_ext orc s0 r).rounds,
      info ∈ s0.rounds ∨
      (0 < info.startInSize ∧
       info.nHitsPerRead = n_hits_per_read batch_size info.startInSize max_ext info.startNExt ∧
       ∃ hc, info.hitsQueueSize = hits_queue_size info.nHitsPerRead info.postSize hc) := by
  induction r with
  | zero => exact fun info h => Or.inl h
  | succ r ih =>
    intro info h
    simp only [loopState, stepRound] at h
    by_cases h0 : (loopState batch_size max_ext orc s0 r).inSize = 0
    · rw [if_pos h0] at h
      exact ih info h
    · rw [if_neg h0] at h
      simp only [List.mem_append, List.mem_singleton] at h
      rcases h with h | h
      · exact ih info h
      · subst h
        exact Or.inr ⟨Nat.pos_of_ne_zero h0, rfl, ⟨orc.hitsCount r, rfl⟩⟩

/-- C1: in every extension round, with Q the active-read queue size and C the
batch capacity, if Q > C/2 the round selects one hit per read, and if
Q ≤ C/2 it selects min(C/Q, min(4096, max_ext - n_ext)) hits per read, where
n_ext is the cumulative extension count at the start of the round. -/
theorem hits_per_read_policy
    (batch_size max_ext q r : ℕ) (orc : SelectOracle) (info : RoundInfo)
    (hmem : info ∈ (loopState batch_size max_ext orc (initState q) r).rounds)
    (hmax : max_ext < 4294967296) (hle : info.startNExt ≤ max_ext) :
    (batch_size / 2 < info.startInSize → info.nHitsPerRead = 1) ∧
    (info.startInSize ≤ batch_size / 2 →
      info.nHitsPerRead =
        min (batch_size / info.startInSize) (min 4096 (max_ext - info.startNExt))) := by
  rcases round_info_spec batch_size max_ext orc (initState q) r info hmem with h | ⟨-, hh, -⟩
  · simp [initState] at h
  · constructor
    · intro hgt
      rw [hh]
      unfold n_hits_per_read
      rw [if_neg (by omega)]
    · intro hge
      rw [hh]
      unfold n_hits_per_read
      rw [if_pos hge, u32sub_eq_sub max_ext info.startNExt hle hmax]

/-- C1 witness: a concrete run with C = 1024, Q = 100 and a remaining budget
of 3 extensions selects 3 hits per read, matching the example of the claim. -/
theorem hits_per_read_policy_witness :
    (⟨100, 0, 3, 100, 300⟩ : RoundInfo).nHitsPerRead =
      min (1024 / 100) (min 4096 (3 - 0)) ∧
    min (1024 / 100) (min 4096 (3 - 0)) = 3 :=
  ⟨(hits_per_read_policy 1024 3 100 1 orcSmall ⟨100, 0, 3, 100, 300⟩
      (by decide) (by decide) (by decide)).2 (by decide),
   by decide⟩

/-- C2 counterexample: at C = 1024 the boundary Q = C/2 = 512 takes the
multi-hit branch (the guard at line 721 is Q ≤ C/2), selecting 2 hits per
read when the remaining budget is 16 — not 1 as the claim states. -/
theorem hits_per_read_half_capacity_cex :
    512 = 1024 / 2 ∧
    n_hits_per_read 1024 512 16 0 = 2 ∧
    n_hits_per_read 1024 512 16 0 ≠ 1 := by
  decide

/-- C2 amended: when Q equals C/2 exactly, the policy selects the multi-hit
branch, so hits_per_read = min(C/Q, min(4096, max_ext - n_ext)); the
single-hit branch requires Q > C/2 strictly. -/
theorem hits_per_read_half_capacity (batch_size max_ext n_ext : ℕ)
    (hmax : max_ext < 4294967296) (hle : n_ext ≤ max_ext) :
    n_hits_per_read batch_size (batch_size / 2) max_ext n_ext =
      min (batch_size / (batch_size / 2)) (min 4096 (max_ext - n_ext)) := by
  unfold n_hits_per_read
  rw [if_pos (le_refl _), u32sub_eq_sub _ _ hle hmax]

/-- C2 witness: at C = 1024, Q = 512 and remaining budget 16, the amended
formula applies concretely. -/
theorem hits_per_read_half_capacity_witness :
    n_hits_per_read 1024 (1024 / 2) 16 0 =
      min (1024 / (1024 / 2)) (min 4096 (16 - 0)) :=
  hits_per_read_half_capacity 1024 16 0 (by decide) (by decide)

/-- C5 counterexample: with max_ext = 1 and a selection that keeps the queue
at 1024 reads (above half of the 1024 batch capacity), the first round
raises n_ext to 1 = max_ext, and a second extension round still executes
(it is recorded with startNExt = 1 ≥ max_ext). -/
theorem extension_budget_cex :
    (loopState 1024 1 orcFull (initState 1024) 2).rounds =
      [⟨1024, 0, 1, 1024, 1024⟩, ⟨1024, 1, 1, 1024, 1024⟩] ∧
    ∃ info ∈ (loopState 1024 1 orcFull (initState 1024) 2).rounds,
      1 ≤ info.startNExt := by
  constructor
  · decide
  · exact ⟨⟨1024, 1, 1, 1024, 1024⟩, by decide, by decide⟩

/-- C5 amended: the extension loop runs rounds exactly while the active-read
queue is non-empty — an emptied queue freezes the loop state, and every
executed round started with a non-empty queue; the max_ext budget only
clamps the number of hits selected per round in the multi-hit branch
(hits_per_read ≤ max_ext - n_ext when Q ≤ C/2 and n_ext ≤ max_ext) and does
not by itself stop further rounds. -/
theorem extension_loop_runs_until_empty
    (batch_size max_ext q : ℕ) (orc : SelectOracle) (s0 : LoopState) (r : ℕ) :
    ((loopState batch_size max_ext orc s0 r).inSize = 0 →
      loopState batch_size max_ext orc s0 (r + 1) = loopState batch_size max_ext orc s0 r) ∧
    (∀ info ∈ (loopState batch_size max_ext orc (initState q) r).rounds,
      0 < info.startInSize) ∧
    (∀ in_size n_ext, in_size ≤ batch_size / 2 → n_ext ≤ max_ext →
      max_ext < 4294967296 →
      n_hits_per_read batch_size in_size max_ext n_ext ≤ max_ext - n_ext) := by
  refine ⟨?_, ?_, ?_⟩
  · intro h0
    simp only [loopState, stepRound, if_pos h0]
  · intro info hmem
    rcases round_info_spec batch_size max_ext orc (initState q) r info hmem with h | ⟨hpos, -, -⟩
    · simp [initState] at h
    · exact hpos
  · intro in_size n_ext h1 h2 h3
    unfold n_hits_per_read
    rw [if_pos h1, u32sub_eq_sub _ _ h2 h3]
    exact le_trans (min_le_right _ _) (min_le_right _ _)

/-- C5 witness: with an immediately-emptied queue the loop state is frozen
after the first step, and the multi-hit clamp holds at C = 1024, Q = 100,
max_ext = 8, n_ext = 0. -/
theorem extension_loop_runs_until_empty_witness :
    loopState 1024 8 orcZero (initState 0) 1 = loopState 1024 8 orcZero (initState 0) 0 ∧
    n_hits_per_read 1024 100 8 0 ≤ 8 - 0 :=
  ⟨(extension_loop_runs_until_empty 1024 8 0 orcZero (initState 0) 0).1 (by decide),
   (extension_loop_runs_until_empty 1024 8 0 orcZero (initState 0) 0).2.2 100 0
     (by decide) (by decide) (by decide)⟩

/-- C10: in every executed extension round whose single-hit branch was taken
(n_hits_per_read = 1), the scored-hit queue size equals the post-selection
active-read queue size; and for n_hits_per_read ≤ 1 the value of the
device-side selected-hit counter is never consulted (the result is the same
for any counter value). -/
theorem single_hit_queue_size
    (batch_size max_ext q r : ℕ) (orc : SelectOracle) (info : RoundInfo)
    (hmem : info ∈ (loopState batch_size max_ext orc (initState q) r).rounds) :
    (info.nHitsPerRead = 1 → info.hitsQueueSize = info.postSize) ∧
    (∀ n post_size hc hc2, n ≤ 1 →
      hits_queue_size n post_size hc = hits_queue_size n post_size hc2) := by
  constructor
  · intro h1
    rcases round_info_spec batch_size max_ext orc (initState q) r info hmem with h | ⟨-, -, hc, hq⟩
    · simp [initState] at h
    · rw [hq, h1]
      unfold hits_queue_size
      rw [if_neg (by omega)]
  · intro n ps hc hc2 hn
    unfold hits_queue_size
    rw [if_neg (by omega), if_neg (by omega)]

/-- C10 witness: in the concrete run where the queue stays at 1024 reads the
first round takes the single-hit branch and its scored-hit queue size equals
its post-selection queue size. -/
theorem single_hit_queue_size_witness :
    (⟨1024, 0, 1, 1024, 1024⟩ : RoundInfo).hitsQueueSize =
      (⟨1024, 0, 1, 1024, 1024⟩ : RoundInfo).postSize :=
  (single_hit_queue_size 1024 1 1024 1 orcFull ⟨1024, 0, 1, 1024, 1024⟩
    (by decide)).1 (by decide)

/-- C3: for every batch and both ranks, the paired and unpaired compactions
are disjoint, their union is exactly the aligned compaction (at the
second-best rank: has_second_paired, has_second_unpaired, has_second), and
every compaction is an order-preserving filter of the index range
[0, count). -/
theorem compaction_partition (count : ℕ) (reg : ℕ → BestAlignments) :
    List.Disjoint (compact_indices count is_paired reg)
      (compact_indices count is_unpaired reg) ∧
    (∀ i, i ∈ compact_indices count is_aligned reg ↔
      i ∈ compact_indices count is_paired reg ∨
      i ∈ compact_indices count is_unpaired reg) ∧
    List.Disjoint (compact_indices count has_second_paired reg)
      (compact_indices count has_second_unpaired reg) ∧
    (∀ i, i ∈ compact_indices count has_second reg ↔
      i ∈ compact_indices count has_second_paired reg ∨
      i ∈ compact_indices count has_second_unpaired reg) ∧
    (∀ pred : BestAlignments → Bool,
      List.Sublist (compact_indices count pred reg) (List.range count)) := by
  refine ⟨?_, ?_, ?_, ?_, fun pred => List.filter_sublist _⟩
  · intro i h1 h2
    simp only [compact_indices, List.mem_filter, is_paired, is_unpaired,
      decide_eq_true_eq] at h1 h2
    rw [h1.2] at h2
    exact absurd h2.2 (by decide)
  · intro i
    simp only [compact_indices, List.mem_filter, is_aligned, is_paired, is_unpaired,
      decide_eq_true_eq]
    cases h : (reg i).best.outcome <;> simp [h]
  · intro i h1 h2
    simp only [compact_indices, List.mem_filter, has_second_paired, has_second_unpaired,
      decide_eq_true_eq] at h1 h2
    rw [h1.2] at h2
    exact absurd h2.2 (by decide)
  · intro i
    simp only [compact_indices, List.mem_filter, has_second, has_second_paired,
      has_second_unpaired, decide_eq_true_eq]
    cases h : (reg i).second.outcome <;> simp [h]

/-- C3 witness: with one read whose best opposite alignment is paired, the
aligned compaction contains index 0 exactly as the union does, and the
paired compaction is a sublist of the range. -/
theorem compaction_partition_witness :
    (0 ∈ compact_indices 1 is_aligned regPairedOnly ↔
      0 ∈ compact_indices 1 is_paired regPairedOnly ∨
      0 ∈ compact_indices 1 is_unpaired regPairedOnly) ∧
    List.Sublist (compact_indices 1 is_paired regPairedOnly) (List.range 1) :=
  ⟨(compaction_partition 1 regPairedOnly).2.1 0,
   (compaction_partition 1 regPairedOnly).2.2.2.2 is_paired⟩

/-- C4: for every batch, the output sink receives exactly four process calls,
in order (mate 1, best), (mate 2, best), (mate 1, second-best),
(mate 2, second-best), regardless of which compacted subsets are empty. -/
theorem output_batches_per_mate_rank (count : ℕ)
    (best_anchor best_opposite : ℕ → BestAlignments) :
    processEvents (best_approx_traceback count best_anchor best_opposite) =
      [(MateId.mate1, Rank.best), (MateId.mate2, Rank.best),
       (MateId.mate1, Rank.second_best), (MateId.mate2, Rank.second_best)] := by
  simp [best_approx_traceback, processEvents, processOf, List.filterMap_append,
    apply_ite (List.filterMap processOf)]

/-- C7: every backtracking call in the traceback stage uses the banded
primitive for anchor-mate and unpaired opposite-mate subsets (both ranks)
and the full, unbanded primitive for paired opposite-mate subsets (both
ranks). -/
theorem traceback_primitive_choice (count : ℕ)
    (best_anchor best_opposite : ℕ → BestAlignments) :
    (best_approx_traceback count best_anchor best_opposite).all bt_prim_ok = true := by
  simp [best_approx_traceback, List.all_append, bt_prim_ok, expected_prim,
    apply_ite (fun l : List Ev => l.all bt_prim_ok)]

/-- True for every event that is not an output-sink process call. -/
def notProcessEv : Ev → Bool
  | Ev.process _ _ => false
  | Ev.clearCM => true
  | Ev.backtrack _ _ _ _ => true
  | Ev.finishAnchor _ _ => true
  | Ev.finishOpposite _ _ => true

theorem chunksAux_append_of_all (l1 : List Ev) (l2 acc : List Ev)
    (h : l1.all notProcessEv = true) :
    chunksAux acc (l1 ++ l2) = chunksAux (acc ++ l1) l2 := by
  induction l1 generalizing acc with
  | nil => simp
  | cons e l1 ih =>
    cases e <;> simp_all [chunksAux, notProcessEv, List.append_assoc]

theorem processChunks_best_approx (count : ℕ)
    (best_anchor best_opposite : ℕ → BestAlignments) :
    processChunks (best_approx_traceback count best_anchor best_opposite) =
      [[Ev.clearCM,
        Ev.backtrack Prim.banded Who.anchorMate Rank.best count,
        Ev.finishAnchor Rank.best count],
       [Ev.clearCM] ++
       (if (compact_indices count is_paired best_opposite).length ≠ 0 then
         [Ev.backtrack Prim.full Who.oppositePaired Rank.best
            (compact_indices count is_paired best_opposite).length] else []) ++
       (if (compact_indices count is_unpaired best_opposite).length ≠ 0 then
         [Ev.backtrack Prim.banded Who.oppositeUnpaired Rank.best
            (compact_indices count is_unpaired best_opposite).length] else []) ++
       (if (compact_indices count is_aligned best_opposite).length ≠ 0 then
         [Ev.finishOpposite Rank.best
            (compact_indices count is_aligned best_opposite).length] else []),
       (if (compact_indices count has_second best_anchor).length ≠ 0 then
         [Ev.clearCM,
          Ev.backtrack Prim.banded Who.anchorMate Rank.second_best
            (compact_indices count has_second best_anchor).length,
          Ev.finishAnchor Rank.second_best
            (compact_indices count has_second best_anchor).length] else []),
       [Ev.clearCM] ++
       (if (compact_indices count has_second_paired best_opposite).length ≠ 0 then
         [Ev.backtrack Prim.full Who.oppositePaired Rank.second_best
            (compact_indices count has_second_paired best_opposite).length] else []) ++
       (if (compact_indices count has_second_unpaired best_opposite).length ≠ 0 then
         [Ev.backtrack Prim.banded Who.oppositeUnpaired Rank.second_best
            (compact_indices count has_second_unpaired best_opposite).length] else []) ++
       (if (compact_indices count has_second best_opposite).length ≠ 0 then
         [Ev.finishOpposite Rank.second_best
            (compact_indices count has_second best_opposite).length] else [])] := by
  simp only [processChunks, best_approx_traceback, List.append_assoc, List.cons_append,
    List.nil_append]
  simp [chunksAux, chunksAux_append_of_all, List.all_append,
    apply_ite (fun l : List Ev => l.all notProcessEv), notProcessEv, List.append_assoc]

/-- C6 counterexample: with one read whose best opposite alignment is paired
and no second-best alignment anywhere, the second-best anchor subset is
empty, and the events between the second and the third process call contain
no buffer clear: the mate-1 second-best batch is emitted without the cigar
and MDS buffers having been cleared for that stage. -/
theorem cigar_clear_cex :
    (processChunks (best_approx_traceback 1 regPairedOnly regPairedOnly)).length = 4 ∧
    Ev.clearCM ∉ (processChunks (best_approx_traceback 1 regPairedOnly regPairedOnly)).getD 2 [] := by
  decide

/-- C6 amended: the cigar and MDS buffers are cleared at the start of the
best-anchor, best-opposite and second-best-opposite stages unconditionally,
but at the second-best anchor stage only when its subset is non-empty; when
that subset is empty the mate-1 second-best batch is emitted with the
buffers still holding the contents of the previous stage. -/
theorem cigar_clear_stages (count : ℕ)
    (best_anchor best_opposite : ℕ → BestAlignments) :
    (processChunks (best_approx_traceback count best_anchor best_opposite)).length = 4 ∧
    Ev.clearCM ∈
      (processChunks (best_approx_traceback count best_anchor best_opposite)).getD 0 [] ∧
    Ev.clearCM ∈
      (processChunks (best_approx_traceback count best_anchor best_opposite)).getD 1 [] ∧
    (Ev.clearCM ∈
      (processChunks (best_approx_traceback count best_anchor best_opposite)).getD 2 [] ↔
      0 < (compact_indices count has_second best_anchor).length) ∧
    Ev.clearCM ∈
      (processChunks (best_approx_traceback count best_anchor best_opposite)).getD 3 [] := by
  rw [processChunks_best_approx]
  refine ⟨rfl, by simp [List.getD], by simp [List.getD], ?_, by simp [List.getD]⟩
  by_cases h : (compact_indices count has_second best_anchor).length = 0 <;>
    simp [List.getD, h, Nat.pos_iff_ne_zero]

/-- C6 witness: the amended clearing discipline holds on the concrete
registry used in the counterexample. -/
theorem cigar_clear_stages_witness :
    (processChunks (best_approx_traceback 1 regPairedOnly regPairedOnly)).length = 4 ∧
    Ev.clearCM ∈
      (processChunks (best_approx_traceback 1 regPairedOnly regPairedOnly)).getD 0 [] :=
  ⟨(cigar_clear_stages 1 regPairedOnly regPairedOnly).1,
   (cigar_clear_stages 1 regPairedOnly regPairedOnly).2.1⟩

/-- C8 counterexample: in the round tail the opposite-score buffer fill with
the worst-score sentinel (lines 898-902) does not precede the compaction of
opposite candidates (lines 891-896): the compaction comes first. -/
theorem opposite_score_reset_order_cex :
    ¬ (List.indexOf ScoringStage.fillOppositeWorst (scoringStageOrder 1) <
        List.indexOf ScoringStage.compactOpposite (scoringStageOrder 1)) := by
  decide

/-- C8 amended: the opposite-score buffer is reset to the worst-score
sentinel after the compaction of opposite candidates but before the
opposite-mate scoring and the reduction; since the compaction reads only the
anchor-score queue, entries excluded from the compacted subset still carry
the sentinel when the reduction reads the opposite scores. -/
theorem opposite_score_reset_effect :
    (∀ q : ℕ,
      List.indexOf ScoringStage.compactOpposite (scoringStageOrder q) <
        List.indexOf ScoringStage.fillOppositeWorst (scoringStageOrder q) ∧
      List.indexOf ScoringStage.fillOppositeWorst (scoringStageOrder q) <
        List.indexOf ScoringStage.reduceScores (scoringStageOrder q)) ∧
    (∀ (hits_qsize : ℕ) (idx_queue : ℕ → ℕ) (score_queue new_score : ℕ → Int)
        (worst : Int) (buf0 : ℕ → Int) (j : ℕ),
      j < hits_qsize → j ∉ opposite_queue hits_qsize idx_queue score_queue worst →
      round_opposite_scores hits_qsize idx_queue score_queue new_score worst buf0 j = worst) := by
  constructor
  · intro q
    by_cases hq : q = 0
    · subst hq
      decide
    · simp only [scoringStageOrder, if_pos hq]
      decide
  · intro hq idxq sq ns worst buf0 j hj hmem
    simp only [round_opposite_scores]
    split_ifs with hc
    · simp only [opposite_score_writes, fill_worst]
      rw [if_neg hmem, if_pos hj]
    · simp only [fill_worst]
      rw [if_pos hj]

/-- C8 witness: concretely, the compaction stage precedes the sentinel fill,
and with one selected hit whose anchor score equals the sentinel, position 0
is excluded from the compacted subset and still carries the sentinel when
the reduction reads the buffer. -/
theorem opposite_score_reset_effect_witness :
    List.indexOf ScoringStage.compactOpposite (scoringStageOrder 1) <
      List.indexOf ScoringStage.fillOppositeWorst (scoringStageOrder 1) ∧
    round_opposite_scores 1 (fun i => i) (fun _ => 0) (fun _ => 5) 0 (fun _ => 7) 0 = 0 :=
  ⟨(opposite_score_reset_effect.1 1).1,
   opposite_score_reset_effect.2 1 (fun i => i) (fun _ => 0) (fun _ => 5) 0 (fun _ => 7) 0
     (by decide) (by decide)⟩

/-- C9: within one batch and for each anchor mate, the seeding-pass queue
size is non-increasing across passes, bounded by the read count, and a read
absent from the queue at some pass never reappears at any later pass. -/
theorem seed_queue_monotone (count : ℕ) (keep : ℕ → ℕ → Bool) (p : ℕ) :
    (seed_queue_at count keep (p + 1)).length ≤ (seed_queue_at count keep p).length ∧
    (seed_queue_at count keep p).length ≤ count ∧
    (∀ x k, x ∉ seed_queue_at count keep p → x ∉ seed_queue_at count keep (p + k)) := by
  refine ⟨List.length_filter_le _ _, ?_, ?_⟩
  · induction p with
    | zero => simp [seed_queue_at]
    | succ p ih => exact le_trans (List.length_filter_le _ _) ih
  · intro x k
    induction k with
    | zero => exact fun h => h
    | succ k ih =>
      intro h hmem
      rw [show p + (k + 1) = (p + k) + 1 from rfl] at hmem
      simp only [seed_queue_at] at hmem
      exact ih h (List.mem_filter.mp hmem).1

/-- C9 witness: with two reads and a selection that drops every read, the
queue shrinks from pass 0 to pass 1 and a read absent at pass 0 is still
absent at pass 1. -/
theorem seed_queue_monotone_witness :
    (seed_queue_at 2 keepNone (0 + 1)).length ≤ (seed_queue_at 2 keepNone 0).length ∧
    5 ∉ seed_queue_at 2 keepNone (0 + 1) :=
  ⟨(seed_queue_monotone 2 keepNone 0).1,
   (seed_queue_monotone 2 keepNone 0).2.2 5 1 (by decide)⟩

end AlignerBestApproxPaired
